import Mathlib

/-!
Verification of the sub2api signature subsystem: a shallow embedding of the
SSE stream processor (`SignatureStreamState`), the signature pool
(`signaturePoolService`), the collector (`SignatureCollector`) and the
signature domain service (`signatureService`), translated from the Go
sources, together with theorems settling the specification claims.

Modelling conventions:
- Go `int`/`int64` are `Int`; byte values and counters are `Nat`.
- `context.Context`, logging, locking and goroutines are erased: the code
  under verification takes and returns explicit state, and the single
  potential pool lookup inside one `ProcessSSELine` call is passed in as an
  `Except Unit String` (its `GetRandomSignature` outcome).
- JSON is modelled by an executable value type with a fuel-based parser
  (modelling `encoding/json` unmarshalling) and two serializers:
  `serializeJson` keeps object-field order (modelling `sjson`'s in-place
  edit of a compact document) and `goMarshal` sorts object keys
  (modelling `json.Marshal` of a Go `map[string]any`).
-/

namespace Sub2Api

/-! ## JSON values -/

/-- JSON values. Objects keep their fields in source order; numbers keep
both their integer part and the source literal (`lit`), so that integral
and non-integral numbers can be told apart as `encoding/json` does when
decoding into an `int` field. -/
inductive Json where
  | null : Json
  | bool (b : Bool) : Json
  | num (i : Int) (lit : String) : Json
  | str (s : String) : Json
  | arr (xs : List Json) : Json
  | obj (fields : List (String × Json)) : Json

/-- Opening brace character (written via its code point). -/
def lbrace : Char := Char.ofNat 123

/-- Closing brace character (written via its code point). -/
def rbrace : Char := Char.ofNat 125

/-- One character of Go `encoding/json` string escaping (HTML escaping on,
as in `json.Marshal`'s default encoder). -/
def goEscapeChar (c : Char) : String :=
  if c = '"' then "\\\""
  else if c = '\\' then "\\\\"
  else if c = '\n' then "\\n"
  else if c = '\r' then "\\r"
  else if c = '\t' then "\\t"
  else if c = '<' then "\\u003c"
  else if c = '>' then "\\u003e"
  else if c = '&' then "\\u0026"
  else if c.toNat < 32 then
    "\\u00" ++
      (String.singleton (Nat.digitChar (c.toNat / 16))) ++
      (String.singleton (Nat.digitChar (c.toNat % 16)))
  else String.singleton c

/-- Go JSON string encoding: quotes plus escaped body. -/
def goQuote (s : String) : String :=
  "\"" ++ String.join (s.data.map goEscapeChar) ++ "\""

mutual

/-- Serialize a JSON value compactly, keeping object fields in stored
order. This is the re-emission used by the model of `sjson.Set`. -/
def serializeJson : Json → String
  | Json.null => "null"
  | Json.bool true => "true"
  | Json.bool false => "false"
  | Json.num _ lit => lit
  | Json.str s => goQuote s
  | Json.arr xs => "[" ++ serializeArr xs ++ "]"
  | Json.obj fs => String.singleton lbrace ++ serializeFields fs ++ String.singleton rbrace

/-- Serialize array elements, comma separated. -/
def serializeArr : List Json → String
  | [] => ""
  | [x] => serializeJson x
  | x :: y :: xs => serializeJson x ++ "," ++ serializeArr (y :: xs)

/-- Serialize object fields, comma separated. -/
def serializeFields : List (String × Json) → String
  | [] => ""
  | [p] => goQuote p.1 ++ ":" ++ serializeJson p.2
  | p :: q :: ps => goQuote p.1 ++ ":" ++ serializeJson p.2 ++ "," ++ serializeFields (q :: ps)

end

/-- Strict code-point order on character lists; on strings this agrees
with Go's byte-wise comparison, since UTF-8 preserves code-point order. -/
def charListLt : List Char → List Char → Bool
  | [], [] => false
  | [], _ :: _ => true
  | _ :: _, [] => false
  | a :: as, b :: bs =>
    if a.toNat < b.toNat then true
    else if b.toNat < a.toNat then false
    else charListLt as bs

/-- Go's key comparison for map-key sorting. -/
def keyLt (a b : String) : Bool :=
  charListLt a.data b.data

/-- Insert a field into a key-sorted field list (insertion sort step). -/
def insertField (p : String × Json) : List (String × Json) → List (String × Json)
  | [] => [p]
  | q :: qs => if keyLt p.1 q.1 then p :: q :: qs else q :: insertField p qs

/-- Sort object fields by key, as `json.Marshal` does for Go maps. -/
def sortFields : List (String × Json) → List (String × Json)
  | [] => []
  | p :: ps => insertField p (sortFields ps)

mutual

/-- Recursively sort every object's fields by key (as `json.Marshal` does
for Go maps at every nesting level). -/
def sortKeysDeep : Json → Json
  | Json.obj fs => Json.obj (sortFields (sortKeysDeepFields fs))
  | Json.arr xs => Json.arr (sortKeysDeepList xs)
  | Json.null => Json.null
  | Json.bool b => Json.bool b
  | Json.num i lit => Json.num i lit
  | Json.str s => Json.str s

/-- `sortKeysDeep` on field values. -/
def sortKeysDeepFields : List (String × Json) → List (String × Json)
  | [] => []
  | p :: ps => (p.1, sortKeysDeep p.2) :: sortKeysDeepFields ps

/-- `sortKeysDeep` on array elements. -/
def sortKeysDeepList : List Json → List Json
  | [] => []
  | x :: xs => sortKeysDeep x :: sortKeysDeepList xs

end

/-- Model of `json.Marshal` applied to a value built from Go maps: compact
output with object keys sorted byte-wise at every level. -/
def goMarshal (j : Json) : String :=
  serializeJson (sortKeysDeep j)

/-! ## JSON parsing (model of `encoding/json` document syntax)

A fuel-based recursive-descent reader. The fuel is an upper bound on the
nesting/iteration depth; callers pass the input length plus a constant, so
every well-formed document that the claims exercise parses. -/

/-- Skip JSON whitespace (space, tab, newline, carriage return). -/
def skipWs : List Char → List Char
  | [] => []
  | c :: cs => if c = ' ' ∨ c = '\t' ∨ c = '\n' ∨ c = '\r' then skipWs cs else c :: cs

/-- Consume an expected literal suffix such as `ull` of `null`. -/
def eatLit : List Char → List Char → Option (List Char)
  | [], cs => some cs
  | _, [] => none
  | l :: ls, c :: cs => if c = l then eatLit ls cs else none

/-- Span of decimal digits. -/
def takeDigits : List Char → List Char × List Char
  | [] => ([], [])
  | c :: cs =>
    if c.isDigit then
      let (ds, rest) := takeDigits cs
      (c :: ds, rest)
    else ([], c :: cs)

/-- Decimal value of a digit list. -/
def digitsVal (ds : List Char) : Nat :=
  ds.foldl (fun acc c => acc * 10 + (c.toNat - 48)) 0

/-- Hexadecimal digit value, if any. -/
def hexVal (c : Char) : Option Nat :=
  if c.isDigit then some (c.toNat - 48)
  else if 'a' ≤ c ∧ c ≤ 'f' then some (c.toNat - 87)
  else if 'A' ≤ c ∧ c ≤ 'F' then some (c.toNat - 55)
  else none

/-- Parse the body of a JSON string after the opening quote, decoding
escapes (`\uXXXX` without surrogate pairing, which the claims never
exercise). Returns the decoded string and remaining input. -/
def parseStringBody : Nat → List Char → Option (String × List Char)
  | 0, _ => none
  | _, [] => none
  | fuel + 1, c :: cs =>
    if c = '"' then some ("", cs)
    else if c = '\\' then
      match cs with
      | [] => none
      | e :: cs2 =>
        let dec : Option (Char × List Char) :=
          if e = '"' then some ('"', cs2)
          else if e = '\\' then some ('\\', cs2)
          else if e = '/' then some ('/', cs2)
          else if e = 'b' then some (Char.ofNat 8, cs2)
          else if e = 'f' then some (Char.ofNat 12, cs2)
          else if e = 'n' then some ('\n', cs2)
          else if e = 'r' then some ('\r', cs2)
          else if e = 't' then some ('\t', cs2)
          else if e = 'u' then
            match cs2 with
            | h1 :: h2 :: h3 :: h4 :: cs3 =>
              match hexVal h1, hexVal h2, hexVal h3, hexVal h4 with
              | some v1, some v2, some v3, some v4 =>
                some (Char.ofNat (((v1 * 16 + v2) * 16 + v3) * 16 + v4), cs3)
              | _, _, _, _ => none
            | _ => none
          else none
        match dec with
        | none => none
        | some (d, rest) =>
          match parseStringBody fuel rest with
          | none => none
          | some (s, rest2) => some (String.singleton d ++ s, rest2)
    else
      match parseStringBody fuel cs with
      | none => none
      | some (s, rest) => some (String.singleton c ++ s, rest)

/-- Parse a JSON number starting at the current position: optional minus,
digits, optional fraction and exponent. Returns the integer part with
sign, the consumed literal, and the remaining input. -/
def parseNumber (cs : List Char) : Option (Int × String × List Char) :=
  let (neg, cs1) :=
    match cs with
    | c :: rest => if c = '-' then (true, rest) else (false, cs)
    | [] => (false, cs)
  let (ds, cs2) := takeDigits cs1
  if ds = [] then none
  else
    let (fracPart, cs3) :=
      match cs2 with
      | c :: rest =>
        if c = '.' then
          let (fds, rest2) := takeDigits rest
          (String.singleton '.' ++ String.mk fds, rest2)
        else ("", cs2)
      | [] => ("", cs2)
    let (expPart, cs4) :=
      match cs3 with
      | c :: rest =>
        if c = 'e' ∨ c = 'E' then
          let (sgn, rest1) :=
            match rest with
            | s :: r2 => if s = '+' ∨ s = '-' then (String.singleton s, r2) else ("", rest)
            | [] => ("", rest)
          let (eds, rest2) := takeDigits rest1
          (String.singleton c ++ sgn ++ String.mk eds, rest2)
        else ("", cs3)
      | [] => ("", cs3)
    let iv : Int := if neg then -(Int.ofNat (digitsVal ds)) else Int.ofNat (digitsVal ds)
    let lit := (if neg then "-" else "") ++ String.mk ds ++ fracPart ++ expPart
    some (iv, lit, cs4)

mutual

/-- Parse one JSON value. -/
def parseVal : Nat → List Char → Option (Json × List Char)
  | 0, _ => none
  | fuel + 1, cs =>
    match skipWs cs with
    | [] => none
    | c :: rest =>
      if c = 'n' then
        match eatLit ['u', 'l', 'l'] rest with
        | some rest2 => some (Json.null, rest2)
        | none => none
      else if c = 't' then
        match eatLit ['r', 'u', 'e'] rest with
        | some rest2 => some (Json.bool true, rest2)
        | none => none
      else if c = 'f' then
        match eatLit ['a', 'l', 's', 'e'] rest with
        | some rest2 => some (Json.bool false, rest2)
        | none => none
      else if c = '"' then
        match parseStringBody (rest.length + 1) rest with
        | some (s, rest2) => some (Json.str s, rest2)
        | none => none
      else if c = lbrace then
        match skipWs rest with
        | c2 :: rest2 =>
          if c2 = rbrace then some (Json.obj [], rest2)
          else
            match parseMembers fuel (c2 :: rest2) with
            | some (fs, rest3) => some (Json.obj fs, rest3)
            | none => none
        | [] => none
      else if c = '[' then
        match skipWs rest with
        | c2 :: rest2 =>
          if c2 = ']' then some (Json.arr [], rest2)
          else
            match parseElements fuel (c2 :: rest2) with
            | some (xs, rest3) => some (Json.arr xs, rest3)
            | none => none
        | [] => none
      else
        match parseNumber (c :: rest) with
        | some (i, lit, rest2) => some (Json.num i lit, rest2)
        | none => none

/-- Parse object members `"k" : v (, "k" : v)*` up to (and consuming) the
closing brace. -/
def parseMembers : Nat → List Char → Option (List (String × Json) × List Char)
  | 0, _ => none
  | fuel + 1, cs =>
    match skipWs cs with
    | c :: rest =>
      if c = '"' then
        match parseStringBody (rest.length + 1) rest with
        | some (k, rest2) =>
          match skipWs rest2 with
          | c2 :: rest3 =>
            if c2 = ':' then
              match parseVal fuel rest3 with
              | some (v, rest4) =>
                match skipWs rest4 with
                | c3 :: rest5 =>
                  if c3 = ',' then
                    match parseMembers fuel rest5 with
                    | some (fs, rest6) => some ((k, v) :: fs, rest6)
                    | none => none
                  else if c3 = rbrace then some ([(k, v)], rest5)
                  else none
                | [] => none
              | none => none
            else none
          | [] => none
        | none => none
      else none
    | [] => none

/-- Parse array elements up to (and consuming) the closing bracket. -/
def parseElements : Nat → List Char → Option (List Json × List Char)
  | 0, _ => none
  | fuel + 1, cs =>
    match parseVal fuel cs with
    | some (v, rest) =>
      match skipWs rest with
      | c :: rest2 =>
        if c = ',' then
          match parseElements fuel rest2 with
          | some (xs, rest3) => some (v :: xs, rest3)
          | none => none
        else if c = ']' then some ([v], rest2)
        else none
      | [] => none
    | none => none

end

/-- Parse a whole JSON document: one value, then only whitespace, as
`json.Unmarshal` requires. -/
def parseJson (s : String) : Option Json :=
  match parseVal (s.data.length + 4) s.data with
  | some (v, rest) => if skipWs rest = [] then some v else none
  | none => none

/-! ## Field access on parsed objects (model of `encoding/json` struct decoding) -/

/-- Last-wins field lookup, as `encoding/json` keeps the final duplicate
of a repeated key. -/
def getField : List (String × Json) → String → Option Json
  | [], _ => none
  | p :: ps, k =>
    match getField ps k with
    | some v => some v
    | none => if p.1 = k then some p.2 else none

/-- Whether a number literal decodes into a Go `int` (no fraction or
exponent, as `strconv.ParseInt` requires). -/
def litIsInt (lit : String) : Bool :=
  lit.data.all (fun c => c.isDigit || c = '-')

/-- The subset of an SSE event that `ProcessSSELine` unmarshals:
`{type, index, delta, content_block}`, the latter two as raw messages. -/
structure SSEEvent where
  type : String
  index : Int
  delta : Option Json
  contentBlock : Option Json

/-- Decode a string-typed field: absent gives the zero value `""`,
present-but-not-a-string is an unmarshal error (`none`). -/
def fieldAsString (fs : List (String × Json)) (k : String) : Option String :=
  match getField fs k with
  | none => some ""
  | some (Json.str s) => some s
  | some _ => none

/-- Decode an int-typed field: absent gives `0`, non-integral numbers or
other shapes are an unmarshal error. -/
def fieldAsInt (fs : List (String × Json)) (k : String) : Option Int :=
  match getField fs k with
  | none => some (0 : Int)
  | some (Json.num i lit) => if litIsInt lit then some i else none
  | some _ => none

/-- Model of `json.Unmarshal(data, &event)` for the event struct of
`ProcessSSELine`: `null` decodes to the zero value, a non-object fails,
and an object decodes field-wise. -/
def unmarshalSSEEvent (data : String) : Option SSEEvent :=
  match parseJson data with
  | none => none
  | some Json.null => some ⟨"", 0, none, none⟩
  | some (Json.obj fs) =>
    match fieldAsString fs "type", fieldAsInt fs "index" with
    | some t, some i => some ⟨t, i, getField fs "delta", getField fs "content_block"⟩
    | _, _ => none
  | some _ => none

/-- The delta struct `{type, signature}` unmarshalled by
`handleContentBlockDelta`. -/
structure DeltaMsg where
  type : String
  signature : String
deriving DecidableEq

/-- Model of `json.Unmarshal(deltaRaw, &delta)`: a `nil` raw message (the
field was absent) is an error, `null` decodes to the zero value, and an
object decodes field-wise. -/
def unmarshalDelta : Option Json → Option DeltaMsg
  | none => none
  | some Json.null => some ⟨"", ""⟩
  | some (Json.obj fs) =>
    match fieldAsString fs "type", fieldAsString fs "signature" with
    | some t, some s => some ⟨t, s⟩
    | _, _ => none
  | some _ => none

/-- The content-block struct `{type, thinking, signature}` unmarshalled by
`handleContentBlockStart`. -/
structure ContentBlockMsg where
  type : String
  thinking : String
  signature : String
deriving DecidableEq

/-- Model of `json.Unmarshal(contentBlockRaw, &contentBlock)`. -/
def unmarshalContentBlock : Option Json → Option ContentBlockMsg
  | none => none
  | some Json.null => some ⟨"", "", ""⟩
  | some (Json.obj fs) =>
    match fieldAsString fs "type", fieldAsString fs "thinking", fieldAsString fs "signature" with
    | some t, some th, some s => some ⟨t, th, s⟩
    | _, _, _ => none
  | some _ => none

/-! ## SSE line recognition (model of `sseDataRegex = ^data:\s*`) -/

/-- Whether `sseDataRegex.MatchString(line)` holds: the anchored pattern
matches exactly when the line starts with `data:` (the `\s*` part always
matches). -/
def sseIsData (line : String) : Bool :=
  "data:".data.isPrefixOf line.data

/-- Drop leading Go-regex whitespace (`\s` is `[\t\n\f\r ]`). -/
def dropGoWs : List Char → List Char
  | [] => []
  | c :: cs =>
    if c = ' ' ∨ c = '\t' ∨ c = '\n' ∨ c = Char.ofNat 12 ∨ c = '\r' then dropGoWs cs
    else c :: cs

/-- `sseDataRegex.ReplaceAllString(line, "")`: remove the `data:` prefix
and the whitespace the greedy `\s*` consumed. -/
def sseStrip (line : String) : String :=
  String.mk (dropGoWs (line.data.drop 5))

/-! ## Collector (`SignatureCollector`, from the collector source file) -/

/-- UTF-8 encoding of one character, as Go lays out string bytes. -/
def utf8EncodeChar (c : Char) : List Nat :=
  let n := c.toNat
  if n < 128 then [n]
  else if n < 2048 then [192 + n / 64, 128 + n % 64]
  else if n < 65536 then [224 + n / 4096, 128 + (n / 64) % 64, 128 + n % 64]
  else [240 + n / 262144, 128 + (n / 4096) % 64, 128 + (n / 64) % 64, 128 + n % 64]

/-- The UTF-8 bytes of a string (Go's `[]byte(s)`). -/
def utf8Bytes (s : String) : List Nat :=
  (s.data.map utf8EncodeChar).flatten

/-- Go's `len` on a string: its byte length. -/
def goStrLen (s : String) : Nat :=
  (utf8Bytes s).length

/-- `SignatureCollector`: the mutex is erased; the collected slice, the
length threshold and the identifying fields remain. -/
structure SignatureCollector where
  signatures : List String
  minLength : Int
  accountID : Int
  model : Option String
deriving DecidableEq

/-- `NewSignatureCollector`: a non-positive `minLength` falls back to the
default 350. -/
def NewSignatureCollector (accountID : Int) (model : Option String) (minLength : Int) :
    SignatureCollector :=
  let ml := if minLength ≤ 0 then 350 else minLength
  { signatures := [], minLength := ml, accountID := accountID, model := model }

/-- `Collect`: discard signatures of byte length at most `minLength`,
otherwise append. -/
def Collect (c : SignatureCollector) (signature : String) : SignatureCollector :=
  if (goStrLen signature : Int) ≤ c.minLength then c
  else { c with signatures := c.signatures ++ [signature] }

/-- `GetCollected`: the collected values in collection order (the Go code
returns a fresh copy of the slice; in the pure model that is the list
itself). -/
def GetCollected (c : SignatureCollector) : List String :=
  c.signatures

/-- `Count`. -/
def CollectorCount (c : SignatureCollector) : Nat :=
  c.signatures.length

/-! ## Stream processor (`SignatureStreamState`, from the stream source file) -/

/-- `SignaturePoolFilter`. -/
structure SignaturePoolFilter where
  models : List String
deriving DecidableEq

/-- `SignatureConfig`: the per-account signature-handling policy. -/
structure SignatureConfig where
  enabled : Bool
  strategy : String
  poolFilter : Option SignaturePoolFilter
  enableCollection : Bool
  minLength : Int
deriving DecidableEq

/-- `ThinkingBlockState`: per-index tracking of one thinking block. -/
structure ThinkingBlockState where
  index : Int
  started : Bool
  hasSignatureDelta : Bool
  receivedSignature : String
  stopped : Bool
deriving DecidableEq

/-- The zero/fresh block state recorded by `handleContentBlockStart`
(`&ThinkingBlockState{Index: index, Started: true}`). -/
def freshBlock (index : Int) : ThinkingBlockState :=
  { index := index, started := true, hasSignatureDelta := false
    receivedSignature := "", stopped := false }

/-- The Go map `thinkingBlocks map[int]*ThinkingBlockState` as an
association list with at most one binding per key. -/
def lookupBlock (m : List (Int × ThinkingBlockState)) (i : Int) : Option ThinkingBlockState :=
  match m with
  | [] => none
  | p :: ps => if p.1 = i then some p.2 else lookupBlock ps i

/-- Map write `m[index] = v` (replace the binding or append it). -/
def insertBlock (m : List (Int × ThinkingBlockState)) (i : Int) (v : ThinkingBlockState) :
    List (Int × ThinkingBlockState) :=
  match m with
  | [] => [(i, v)]
  | p :: ps => if p.1 = i then (i, v) :: ps else p :: insertBlock ps i v

/-- The mutable fields of `SignatureStreamState` that the handlers touch:
the per-index map and the optional collector (config, pool, context and
account id are immutable and passed separately). -/
structure StreamState where
  thinkingBlocks : List (Int × ThinkingBlockState)
  collector : Option SignatureCollector
deriving DecidableEq

/-- `NewSignatureStreamState`: empty block map, given collector. -/
def NewSignatureStreamState (collector : Option SignatureCollector) : StreamState :=
  { thinkingBlocks := [], collector := collector }

/-- Replace or create a field of an object field-list in place, keeping
the original field order (append when absent). -/
def setFieldWith (fs : List (String × Json)) (k : String) (f : Option Json → Json) :
    List (String × Json) :=
  if fs.any (fun p => p.1 = k) then
    fs.map (fun p => if p.1 = k then (k, f (some p.2)) else p)
  else fs ++ [(k, f none)]

/-- The inner step of `sjson.Set(data, "delta.signature", v)`: write
`signature` inside the `delta` value, creating the object when the path
component is missing or not an object. -/
def setDeltaSignature (dv : Option Json) (sig : String) : Json :=
  match dv with
  | some (Json.obj dfs) => Json.obj (setFieldWith dfs "signature" (fun _ => Json.str sig))
  | _ => Json.obj [("signature", Json.str sig)]

/-- Model of `sjson.Set(data, "delta.signature", signature)`: parse the
compact document, rewrite the path in place (field order preserved), and
re-emit compactly. `sjson`'s byte-level reuse of the input is abstracted
to this parse/serialize round trip; its error case surfaces as `none`. -/
def sjsonSetDeltaSignature (data : String) (sig : String) : Option String :=
  match parseJson data with
  | some (Json.obj fs) =>
    some (serializeJson (Json.obj (setFieldWith fs "delta" (fun dv => setDeltaSignature dv sig))))
  | _ => none

/-- `replaceSignatureInLine`: draw from the pool; on pool error or empty
value pass the line through; otherwise rewrite `delta.signature` in the
data payload, passing the line through if the JSON mutation fails. -/
def replaceSignatureInLine (pool : Except Unit String) (line : String) : String :=
  match pool with
  | Except.error _ => line
  | Except.ok signature =>
    if signature = "" then line
    else
      let data := sseStrip line
      match sjsonSetDeltaSignature data signature with
      | none => line
      | some newData => "data: " ++ newData

/-- The event value built by `generateSignatureDeltaLine` (a Go
`map[string]any`; field order here is the source order of the literal,
which `goMarshal` re-sorts as `json.Marshal` does). -/
def signatureDeltaEvent (index : Int) (signature : String) : Json :=
  Json.obj
    [ ("type", Json.str "content_block_delta")
    , ("index", Json.num index (toString index))
    , ("delta", Json.obj
        [ ("type", Json.str "signature_delta")
        , ("signature", Json.str signature) ]) ]

/-- `generateSignatureDeltaLine`: pool draw, then `json.Marshal` of the
event map; empty string signals failure. -/
def generateSignatureDeltaLine (pool : Except Unit String) (index : Int) : String :=
  match pool with
  | Except.error _ => ""
  | Except.ok signature =>
    if signature = "" then ""
    else "data: " ++ goMarshal (signatureDeltaEvent index signature)

/-- `handleContentBlockStart`: record fresh state for thinking blocks,
never touching the line. -/
def handleContentBlockStart (st : StreamState) (line : String) (index : Int)
    (contentBlockRaw : Option Json) : String × StreamState :=
  match unmarshalContentBlock contentBlockRaw with
  | none => (line, st)
  | some cb =>
    if cb.type ≠ "thinking" then (line, st)
    else (line, { st with thinkingBlocks := insertBlock st.thinkingBlocks index (freshBlock index) })

/-- `handleContentBlockDelta`: on a `signature_delta`, update tracked
block state and collect, then apply the strategy. -/
def handleContentBlockDelta (cfg : SignatureConfig) (pool : Except Unit String)
    (st : StreamState) (line : String) (index : Int) (deltaRaw : Option Json) :
    String × StreamState :=
  match unmarshalDelta deltaRaw with
  | none => (line, st)
  | some d =>
    if d.type ≠ "signature_delta" then (line, st)
    else
      let st' :=
        match lookupBlock st.thinkingBlocks index with
        | some block =>
          let block' := { block with hasSignatureDelta := true, receivedSignature := d.signature }
          let coll' :=
            match st.collector with
            | some c => if d.signature ≠ "" then some (Collect c d.signature) else some c
            | none => none
          { thinkingBlocks := insertBlock st.thinkingBlocks index block', collector := coll' }
        | none => st
      if cfg.strategy = "always_replace" then (replaceSignatureInLine pool line, st')
      else (line, st')

/-- `handleContentBlockStop`: mark the block stopped and decide whether to
inject a synthetic `signature_delta` before the stop line. -/
def handleContentBlockStop (cfg : SignatureConfig) (pool : Except Unit String)
    (st : StreamState) (line : String) (index : Int) :
    String × List String × StreamState :=
  match lookupBlock st.thinkingBlocks index with
  | none => (line, [], st)
  | some block =>
    let block' := { block with stopped := true }
    let st' := { st with thinkingBlocks := insertBlock st.thinkingBlocks index block' }
    let needsInjection :=
      if cfg.strategy = "always_replace" then !block.hasSignatureDelta
      else if cfg.strategy = "fill_missing" then !block.hasSignatureDelta
      else false
    if needsInjection then
      let injectedLine := generateSignatureDeltaLine pool index
      if injectedLine ≠ "" then (line, [injectedLine], st')
      else (line, [], st')
    else (line, [], st')

/-- The `(line, extraLines, err)` triple of `ProcessSSELine` plus the
updated mutable state. -/
structure ProcessResult where
  line : String
  extraLines : List String
  state : StreamState
  err : Option String
deriving DecidableEq

/-- `ProcessSSELine`: the per-line entry point of the stream processor.
`pool` is the outcome of the (at most one) `GetRandomSignature` call the
line can trigger. -/
def ProcessSSELine (cfg : SignatureConfig) (pool : Except Unit String)
    (st : StreamState) (line : String) : ProcessResult :=
  if sseIsData line = false then ⟨line, [], st, none⟩
  else
    let data := sseStrip line
    if data = "" ∨ data = "[DONE]" then ⟨line, [], st, none⟩
    else
      match unmarshalSSEEvent data with
      | none => ⟨line, [], st, none⟩
      | some ev =>
        if ev.type = "content_block_start" then
          let r := handleContentBlockStart st line ev.index ev.contentBlock
          ⟨r.1, [], r.2, none⟩
        else if ev.type = "content_block_delta" then
          let r := handleContentBlockDelta cfg pool st line ev.index ev.delta
          ⟨r.1, [], r.2, none⟩
        else if ev.type = "content_block_stop" then
          let r := handleContentBlockStop cfg pool st line ev.index
          ⟨r.1, r.2.1, r.2.2, none⟩
        else ⟨line, [], st, none⟩

/-- The pool outcome that actually yields a usable signature inside the
processor: a successful draw of a non-empty value (the code treats
`err != nil || signature == ""` as a miss). -/
def poolYields : Except Unit String → Option String
  | Except.error _ => none
  | Except.ok v => if v = "" then none else some v

/-! ## Signature pool (`signaturePoolService`, from the pool source file) -/

/-- The persisted `Signature` entity (service-layer projection; lifecycle
timestamps, which the claims do not mention, are omitted). -/
structure Signature where
  id : Int
  value : String
  hash : String
  model : Option String
  source : String
  status : String
  useCount : Int
  notes : Option String
  collectedFromAccountID : Option Int
deriving DecidableEq

/-- `CachedSignature`: the in-memory pool projection `{id, value, model}`. -/
structure CachedSignature where
  id : Int
  value : String
  model : Option String
deriving DecidableEq

/-- The mutable pool-cache state (`cachedSigs`; the `cacheExpiry` clock
comparison is abstracted to the boolean `notExpired` input of the
operations below). -/
structure PoolState where
  cachedSigs : List CachedSignature
deriving DecidableEq

/-- `reloadCache`: double-checked reload. On a database error the previous
snapshot is retained; on success the snapshot is replaced. `db` is the
outcome of `ListActive(ctx, 1000)`. -/
def reloadCache (st : PoolState) (notExpired : Bool) (db : Except Unit (List Signature)) :
    List CachedSignature × PoolState :=
  if st.cachedSigs ≠ [] ∧ notExpired = true then (st.cachedSigs, st)
  else
    match db with
    | Except.error _ => (st.cachedSigs, st)
    | Except.ok signatures =>
      let cached := signatures.map (fun sig => CachedSignature.mk sig.id sig.value sig.model)
      (cached, ⟨cached⟩)

/-- `getCachedSignatures`: serve the snapshot while non-empty and fresh,
otherwise reload. -/
def getCachedSignatures (st : PoolState) (notExpired : Bool)
    (db : Except Unit (List Signature)) : List CachedSignature × PoolState :=
  if st.cachedSigs ≠ [] ∧ notExpired = true then (st.cachedSigs, st)
  else reloadCache st notExpired db

/-- Eligibility of one cached signature under a model filter set: nil
models are universal, otherwise the model must be in the set. -/
def sigEligible (models : List String) (sig : CachedSignature) : Bool :=
  match sig.model with
  | none => true
  | some m => models.contains m

/-- `filterSignatures`: identity for a nil/empty filter; otherwise keep
eligible signatures, degrading to the unfiltered list when the filtered
result would be empty. -/
def filterSignatures (sigs : List CachedSignature) (filter : Option SignaturePoolFilter) :
    List CachedSignature :=
  match filter with
  | none => sigs
  | some f =>
    if f.models = [] then sigs
    else
      let result := sigs.filter (sigEligible f.models)
      if result = [] then sigs else result

/-- The uniformly random pick `filtered[rng.Intn(len(filtered))]`, with
the draw modelled by an arbitrary natural `r` reduced modulo the length. -/
def selectSignature (filtered : List CachedSignature) (r : Nat) : CachedSignature :=
  filtered.getD (r % filtered.length) ⟨0, "", none⟩

/-- Signature error kinds. -/
inductive SigError where
  | notFound
  | nilInput
  | duplicate
  | poolEmpty
deriving DecidableEq

/-- `GetRandomSignature`: snapshot acquisition, filtering, random pick,
returning the selected value (the asynchronous `MarkUsed` side effect is
outside the returned state). -/
def GetRandomSignature (st : PoolState) (notExpired : Bool)
    (db : Except Unit (List Signature)) (filter : Option SignaturePoolFilter) (r : Nat) :
    Except SigError String × PoolState :=
  let acq := getCachedSignatures st notExpired db
  let sigs := acq.1
  if sigs = [] then (Except.error SigError.poolEmpty, acq.2)
  else
    let filtered := filterSignatures sigs filter
    if filtered = [] then (Except.error SigError.poolEmpty, acq.2)
    else (Except.ok (selectSignature filtered r).value, acq.2)

/-- `GetPoolSize`. -/
def GetPoolSize (st : PoolState) : Nat :=
  st.cachedSigs.length

/-! ## SHA-256 (model of `crypto/sha256.Sum256`, FIPS 180-4) -/

/-- 2^32, the word modulus. -/
def m32 : Nat := 4294967296

/-- Right rotation of a 32-bit word. -/
def rotr32 (n x : Nat) : Nat :=
  x / 2 ^ n + x % 2 ^ n * 2 ^ (32 - n)

/-- Logical right shift. -/
def shr32 (n x : Nat) : Nat :=
  x / 2 ^ n

/-- Bitwise complement within 32 bits. -/
def not32 (x : Nat) : Nat :=
  Nat.xor x (m32 - 1)

/-- Three-way xor. -/
def xor3 (a b c : Nat) : Nat :=
  Nat.xor (Nat.xor a b) c

/-- SHA-256 `Ch(x,y,z)`. -/
def shaCh (x y z : Nat) : Nat :=
  Nat.xor (Nat.land x y) (Nat.land (not32 x) z)

/-- SHA-256 `Maj(x,y,z)`. -/
def shaMaj (x y z : Nat) : Nat :=
  xor3 (Nat.land x y) (Nat.land x z) (Nat.land y z)

/-- SHA-256 `Σ0`. -/
def bigSigma0 (x : Nat) : Nat := xor3 (rotr32 2 x) (rotr32 13 x) (rotr32 22 x)

/-- SHA-256 `Σ1`. -/
def bigSigma1 (x : Nat) : Nat := xor3 (rotr32 6 x) (rotr32 11 x) (rotr32 25 x)

/-- SHA-256 `σ0`. -/
def smallSigma0 (x : Nat) : Nat := xor3 (rotr32 7 x) (rotr32 18 x) (shr32 3 x)

/-- SHA-256 `σ1`. -/
def smallSigma1 (x : Nat) : Nat := xor3 (rotr32 17 x) (rotr32 19 x) (shr32 10 x)

/-- The 64 SHA-256 round constants of FIPS 180-4 (decimal). -/
def shaK : List Nat :=
  [
    1116352408, 1899447441, 3049323471, 3921009573, 961987163, 1508970993,
    2453635748, 2870763221, 3624381080, 310598401, 607225278, 1426881987,
    1925078388, 2162078206, 2614888103, 3248222580, 3835390401, 4022224774,
    264347078, 604807628, 770255983, 1249150122, 1555081692, 1996064986,
    2554220882, 2821834349, 2952996808, 3210313671, 3336571891, 3584528711,
    113926993, 338241895, 666307205, 773529912, 1294757372, 1396182291,
    1695183700, 1986661051, 2177026350, 2456956037, 2730485921, 2820302411,
    3259730800, 3345764771, 3516065817, 3600352804, 4094571909, 275423344,
    430227734, 506948616, 659060556, 883997877, 958139571, 1322822218,
    1537002063, 1747873779, 1955562222, 2024104815, 2227730452, 2361852424,
    2428436474, 2756734187, 3204031479, 3329325298 ]

/-- The initial SHA-256 hash state of FIPS 180-4 (decimal). -/
def shaH0 : List Nat :=
  [
    1779033703, 3144134277, 1013904242, 2773480762,
    1359893119, 2600822924, 528734635, 1541459225 ]

/-- Big-endian byte decomposition of a value into `n` bytes. -/
def beBytes : Nat → Nat → List Nat
  | 0, _ => []
  | n + 1, v => beBytes n (v / 256) ++ [v % 256]

/-- SHA-256 padding: `0x80`, zeros, then the 64-bit big-endian bit
length, to a multiple of 64 bytes. -/
def padMessage (msg : List Nat) : List Nat :=
  let len := msg.length
  let zeros := (119 - len % 64) % 64
  msg ++ [128] ++ List.replicate zeros 0 ++ beBytes 8 (8 * len)

/-- Fuel-driven split into 64-byte chunks (the fuel bounds the number of
chunks; one unit per chunk suffices). -/
def chunks64Fuel : Nat → List Nat → List (List Nat)
  | 0, _ => []
  | _ + 1, [] => []
  | fuel + 1, a :: rest => ((a :: rest).take 64) :: chunks64Fuel fuel ((a :: rest).drop 64)

/-- Split into 64-byte chunks. -/
def chunks64 (l : List Nat) : List (List Nat) :=
  chunks64Fuel l.length l

/-- Pack bytes into 32-bit big-endian words. -/
def bytesToWords : List Nat → List Nat
  | b0 :: b1 :: b2 :: b3 :: rest => (((b0 * 256 + b1) * 256 + b2) * 256 + b3) :: bytesToWords rest
  | _ => []

/-- One message-schedule extension step appended to the word list. -/
def extendStep (w : List Nat) : List Nat :=
  let t := w.length
  let nw := (smallSigma1 (w.getD (t - 2) 0) + w.getD (t - 7) 0 +
             smallSigma0 (w.getD (t - 15) 0) + w.getD (t - 16) 0) % m32
  w ++ [nw]

/-- Extend the 16 chunk words to the 64-word message schedule. -/
def extendWords : Nat → List Nat → List Nat
  | 0, w => w
  | n + 1, w => extendWords n (extendStep w)

/-- One compression round on the eight-word working state. -/
def compressRound (st : List Nat) (kw : Nat × Nat) : List Nat :=
  match st with
  | [a, b, c, d, e, f, g, h] =>
    let t1 := (h + bigSigma1 e + shaCh e f g + kw.1 + kw.2) % m32
    let t2 := (bigSigma0 a + shaMaj a b c) % m32
    [(t1 + t2) % m32, a, b, c, (d + t1) % m32, e, f, g]
  | other => other

/-- Compress one 64-byte chunk into the hash state. -/
def compressChunk (hs : List Nat) (chunk : List Nat) : List Nat :=
  let w := extendWords 48 (bytesToWords chunk)
  let st := (shaK.zip w).foldl compressRound hs
  (hs.zip st).map (fun p => (p.1 + p.2) % m32)

/-- SHA-256 digest bytes of a byte message. -/
def sha256Bytes (msg : List Nat) : List Nat :=
  let hs := (chunks64 (padMessage msg)).foldl compressChunk shaH0
  (hs.map (beBytes 4)).flatten

/-- Lowercase hex of one byte. -/
def hexByte (b : Nat) : String :=
  String.singleton (Nat.digitChar (b / 16)) ++ String.singleton (Nat.digitChar (b % 16))

/-- Lowercase hex encoding of a byte list (`hex.EncodeToString`). -/
def hexEncode (bs : List Nat) : String :=
  String.join (bs.map hexByte)

/-- `computeSignatureHash`: hex-encoded SHA-256 of the value's bytes. -/
def computeSignatureHash (value : String) : String :=
  hexEncode (sha256Bytes (utf8Bytes value))

/-! ## Persistence adapter (`signatureRepository`, from the repository
source file) over an explicit row store -/

/-- One persisted row: the entity plus its soft-delete flag
(`deleted_at`). -/
structure SigRow where
  sig : Signature
  deleted : Bool
deriving DecidableEq

/-- The signatures table. -/
abbrev SigStore := List SigRow

/-- `ExistsByHash`: any non-deleted row with the hash. -/
def ExistsByHash (store : SigStore) (hash : String) : Bool :=
  store.any (fun r => !r.deleted && r.sig.hash == hash)

/-- `ExistsByHashes`, one hash at a time: the returned map sends `h` to
`true` exactly when a non-deleted row carries it. -/
def existsByHashesLookup (store : SigStore) (hash : String) : Bool :=
  ExistsByHash store hash

/-- The `UNIQUE` constraint on `signatures.hash` (over all rows, deleted
included, per the migration): a bulk insert violates it when two inserted
rows share a hash or an inserted hash already exists. -/
def batchViolatesUnique (store : SigStore) (sigs : List Signature) : Bool :=
  !(sigs.map (fun s => s.hash)).Nodup ||
    sigs.any (fun s => store.any (fun r => r.sig.hash == s.hash))

/-- `BatchCreate`: all-or-nothing bulk insert; a unique-hash violation
fails the whole batch and leaves the store unchanged. -/
def BatchCreate (store : SigStore) (sigs : List Signature) :
    Except SigError (Nat × SigStore) :=
  if sigs = [] then Except.ok (0, store)
  else if batchViolatesUnique store sigs then Except.error SigError.duplicate
  else Except.ok (sigs.length, store ++ sigs.map (fun s => SigRow.mk s false))

/-! ## Domain service (`signatureService`, from the service source file) -/

/-- `Create(value, model, notes)`: hash, duplicate check, then persist
with `source=manual`, `status=active`, `use_count=0` (the DB-assigned id
and timestamps are not modelled). -/
def Create (store : SigStore) (value : String) (model : Option String) (notes : Option String) :
    Except SigError Signature × SigStore :=
  let hash := computeSignatureHash value
  if ExistsByHash store hash then (Except.error SigError.duplicate, store)
  else
    let sig : Signature :=
      { id := 0, value := value, hash := hash, model := model, source := "manual"
        status := "active", useCount := 0, notes := none, collectedFromAccountID := none }
    let sig := { sig with notes := notes }
    (Except.ok sig, store ++ [SigRow.mk sig false])

/-- `BatchImportResult`. -/
structure BatchImportResult where
  total : Nat
  imported : Nat
  duplicated : Nat
  failed : Nat
deriving DecidableEq

/-- The number of values of a batch whose hash is already present (the
`Duplicated` counter incremented by the import loop). -/
def countDuplicated (store : SigStore) (values : List String) : Nat :=
  values.countP (fun v => existsByHashesLookup store (computeSignatureHash v))

/-- The values of a batch that survive the `ExistsByHashes` filter, in
input order (the loop skips a value exactly when its hash is already
present; there is no in-batch deduplication). -/
def batchImportNewValues (store : SigStore) (values : List String) : List String :=
  values.filter (fun v => !existsByHashesLookup store (computeSignatureHash v))

/-- The `*Signature` slice passed to `BatchCreate` by `BatchImport`. -/
def batchImportNewSigs (store : SigStore) (values : List String) (model : Option String)
    (source : String) : List Signature :=
  (batchImportNewValues store values).map (fun v =>
    { id := 0, value := v, hash := computeSignatureHash v, model := model, source := source
      status := "active", useCount := 0, notes := none, collectedFromAccountID := none })

/-- The outcome of one `BatchImport` call: its result struct, the error
(if any), the resulting store, and whether `BatchCreate` was invoked. -/
structure BatchImportOutcome where
  result : BatchImportResult
  err : Option SigError
  store : SigStore
  calledBatchCreate : Bool
deriving DecidableEq

/-- `BatchImport(values, model, source)`: default source `imported`, one
`ExistsByHashes` round trip, duplicate counting, then a single
`BatchCreate` for the non-duplicates; on its failure
`failed = len(newSigs)` and the error is surfaced. -/
def BatchImport (store : SigStore) (values : List String) (model : Option String)
    (source : String) : BatchImportOutcome :=
  if values = [] then ⟨⟨0, 0, 0, 0⟩, none, store, false⟩
  else
    let source := if source = "" then "imported" else source
    let duplicated := countDuplicated store values
    let newSigs := batchImportNewSigs store values model source
    if newSigs = [] then ⟨⟨values.length, 0, duplicated, 0⟩, none, store, false⟩
    else
      match BatchCreate store newSigs with
      | Except.error _ =>
        ⟨⟨values.length, 0, duplicated, newSigs.length⟩, some SigError.duplicate, store, true⟩
      | Except.ok (imported, store') =>
        ⟨⟨values.length, imported, duplicated, 0⟩, none, store', true⟩

/-! ## Helper lemmas: stream processor -/

/-- A `data: `-prefixed line is never the empty string. -/
theorem dataPrefix_ne_empty (s : String) : "data: " ++ s ≠ "" := by
  intro h
  have hd := congrArg String.data h
  simp [String.data_append] at hd

/-- A payload that unmarshals to an event is neither empty nor the
`[DONE]` sentinel. -/
theorem unmarshal_ne_sentinel {data : String} {ev : SSEEvent}
    (h : unmarshalSSEEvent data = some ev) : ¬(data = "" ∨ data = "[DONE]") := by
  rintro (hd | hd) <;> rw [hd] at h
  · exact Option.noConfusion ((rfl : unmarshalSSEEvent "" = none) ▸ h)
  · exact Option.noConfusion ((rfl : unmarshalSSEEvent "[DONE]" = none) ▸ h)

/-- Dispatch of `ProcessSSELine` to the stop handler. -/
theorem ProcessSSELine_stop {cfg pool st line ev}
    (hpre : sseIsData line = true)
    (hev : unmarshalSSEEvent (sseStrip line) = some ev)
    (htype : ev.type = "content_block_stop") :
    ProcessSSELine cfg pool st line =
      ⟨(handleContentBlockStop cfg pool st line ev.index).1,
       (handleContentBlockStop cfg pool st line ev.index).2.1,
       (handleContentBlockStop cfg pool st line ev.index).2.2, none⟩ := by
  unfold ProcessSSELine
  rw [hpre, if_neg (by simp), if_neg (unmarshal_ne_sentinel hev), hev]
  simp only [htype]
  rw [if_neg (by decide), if_neg (by decide)]
  simp

/-- Dispatch of `ProcessSSELine` to the delta handler. -/
theorem ProcessSSELine_delta {cfg pool st line ev}
    (hpre : sseIsData line = true)
    (hev : unmarshalSSEEvent (sseStrip line) = some ev)
    (htype : ev.type = "content_block_delta") :
    ProcessSSELine cfg pool st line =
      ⟨(handleContentBlockDelta cfg pool st line ev.index ev.delta).1, [],
       (handleContentBlockDelta cfg pool st line ev.index ev.delta).2, none⟩ := by
  unfold ProcessSSELine
  rw [hpre, if_neg (by simp), if_neg (unmarshal_ne_sentinel hev), hev]
  simp only [htype]
  rw [if_neg (by decide)]
  simp

/-- A pool outcome that yields a value is a successful non-empty draw. -/
theorem poolYields_some {pool : Except Unit String} {v : String}
    (h : poolYields pool = some v) : pool = Except.ok v ∧ v ≠ "" := by
  cases pool with
  | error e => exact Option.noConfusion h
  | ok w =>
    simp only [poolYields] at h
    by_cases hw : w = ""
    · rw [if_pos hw] at h
      exact Option.noConfusion h
    · rw [if_neg hw] at h
      cases h
      exact ⟨rfl, hw⟩

/-- A pool miss makes `generateSignatureDeltaLine` return the empty
string. -/
theorem generate_miss {pool : Except Unit String} (i : Int)
    (h : poolYields pool = none) : generateSignatureDeltaLine pool i = "" := by
  cases pool with
  | error e => rfl
  | ok w =>
    simp only [poolYields] at h
    simp only [generateSignatureDeltaLine]
    by_cases hw : w = ""
    · rw [if_pos hw]
    · rw [if_neg hw] at h
      exact Option.noConfusion h

/-- A pool hit makes `generateSignatureDeltaLine` emit the marshalled
synthetic event. -/
theorem generate_hit {pool : Except Unit String} {v : String} (i : Int)
    (h : poolYields pool = some v) :
    generateSignatureDeltaLine pool i = "data: " ++ goMarshal (signatureDeltaEvent i v) := by
  obtain ⟨hp, hv⟩ := poolYields_some h
  rw [hp]
  simp only [generateSignatureDeltaLine]
  rw [if_neg hv]

/-- The stop handler never modifies the stop line itself. -/
theorem handleContentBlockStop_line (cfg : SignatureConfig) (pool : Except Unit String)
    (st : StreamState) (line : String) (i : Int) :
    (handleContentBlockStop cfg pool st line i).1 = line := by
  unfold handleContentBlockStop
  dsimp only
  repeat' split
  all_goals rfl

/-- Characterisation of the extra lines returned by the stop handler for
a tracked block. -/
theorem handleContentBlockStop_extras {st : StreamState} {b : ThinkingBlockState}
    (cfg : SignatureConfig) (pool : Except Unit String) (line : String) {i : Int}
    (hblk : lookupBlock st.thinkingBlocks i = some b) :
    (handleContentBlockStop cfg pool st line i).2.1 =
      if (cfg.strategy = "always_replace" ∨ cfg.strategy = "fill_missing") ∧
          b.hasSignatureDelta = false ∧ generateSignatureDeltaLine pool i ≠ ""
      then [generateSignatureDeltaLine pool i] else [] := by
  unfold handleContentBlockStop
  rw [hblk]
  by_cases h1 : cfg.strategy = "always_replace"
  · by_cases hb : b.hasSignatureDelta
    · simp [h1, hb]
    · by_cases hg : generateSignatureDeltaLine pool i = ""
      · simp [h1, hb, hg]
      · simp [h1, hb, hg]
  · by_cases h2 : cfg.strategy = "fill_missing"
    · by_cases hb : b.hasSignatureDelta
      · simp [h1, h2, hb]
      · by_cases hg : generateSignatureDeltaLine pool i = ""
        · simp [h1, h2, hb, hg]
        · simp [h1, h2, hb, hg]
    · simp [h1, h2]

/-- C1: on a `content_block_stop` for a tracked thinking block, the stop
line itself is returned unchanged, and under `always_replace` or
`fill_missing` exactly one synthetic `signature_delta` line is returned
(to be emitted before the stop line) precisely when no `signature_delta`
was received for the block and the pool yields a signature; under any
other strategy (`disabled` included), or on a pool miss, no extra line is
returned. -/
theorem stop_injection_iff_missing_and_pool_yields
    {cfg : SignatureConfig} {pool : Except Unit String} {st : StreamState}
    {line : String} {ev : SSEEvent} {b : ThinkingBlockState}
    (hpre : sseIsData line = true)
    (hev : unmarshalSSEEvent (sseStrip line) = some ev)
    (htype : ev.type = "content_block_stop")
    (hblk : lookupBlock st.thinkingBlocks ev.index = some b) :
    (ProcessSSELine cfg pool st line).line = line ∧
    ((cfg.strategy = "always_replace" ∨ cfg.strategy = "fill_missing") →
      (∀ v, b.hasSignatureDelta = false → poolYields pool = some v →
        (ProcessSSELine cfg pool st line).extraLines =
          ["data: " ++ goMarshal (signatureDeltaEvent ev.index v)]) ∧
      (b.hasSignatureDelta = true → (ProcessSSELine cfg pool st line).extraLines = []) ∧
      (poolYields pool = none → (ProcessSSELine cfg pool st line).extraLines = [])) ∧
    (cfg.strategy = "disabled" → (ProcessSSELine cfg pool st line).extraLines = []) := by
  rw [ProcessSSELine_stop hpre hev htype]
  refine ⟨handleContentBlockStop_line cfg pool st line ev.index, ?_, ?_⟩
  · intro hs
    refine ⟨?_, ?_, ?_⟩
    · intro v hb hp
      show (handleContentBlockStop cfg pool st line ev.index).2.1 = _
      rw [handleContentBlockStop_extras cfg pool line hblk]
      rw [if_pos ⟨hs, hb, by rw [generate_hit ev.index hp]; exact dataPrefix_ne_empty _⟩]
      rw [generate_hit ev.index hp]
    · intro hb
      show (handleContentBlockStop cfg pool st line ev.index).2.1 = _
      rw [handleContentBlockStop_extras cfg pool line hblk, if_neg]
      rintro ⟨_, hb2, _⟩
      rw [hb] at hb2
      exact Bool.noConfusion hb2
    · intro hp
      show (handleContentBlockStop cfg pool st line ev.index).2.1 = _
      rw [handleContentBlockStop_extras cfg pool line hblk, if_neg]
      rintro ⟨_, _, hg⟩
      exact hg (generate_miss ev.index hp)
  · intro hs
    show (handleContentBlockStop cfg pool st line ev.index).2.1 = _
    rw [handleContentBlockStop_extras cfg pool line hblk, if_neg]
    rintro ⟨hor, _, _⟩
    rcases hor with h | h <;> rw [hs] at h <;> exact absurd h (by decide)

/-- Witness for C1: a concrete tracked stop with a pool hit injects the
synthetic line. -/
theorem stop_injection_witness :
    (ProcessSSELine ⟨true, "fill_missing", none, false, 350⟩ (Except.ok "SIG-A")
        ⟨[((0 : Int), freshBlock 0)], none⟩
        "data: \x7b\"type\":\"content_block_stop\",\"index\":0\x7d").extraLines =
      ["data: " ++ goMarshal (signatureDeltaEvent 0 "SIG-A")] := by
  have h := @stop_injection_iff_missing_and_pool_yields
    ⟨true, "fill_missing", none, false, 350⟩ (Except.ok "SIG-A")
    ⟨[((0 : Int), freshBlock 0)], none⟩
    "data: \x7b\"type\":\"content_block_stop\",\"index\":0\x7d"
    ⟨"content_block_stop", 0, none, none⟩ (freshBlock 0)
    (by decide) rfl rfl rfl
  exact (h.2.1 (Or.inr rfl)).1 "SIG-A" rfl rfl

/-- The start handler never modifies the line. -/
theorem handleContentBlockStart_line (st : StreamState) (line : String) (i : Int)
    (cb : Option Json) : (handleContentBlockStart st line i cb).1 = line := by
  unfold handleContentBlockStart
  repeat' split
  all_goals rfl

/-- On a pool miss the in-line replacement is the identity. -/
theorem replaceSignatureInLine_miss {pool : Except Unit String} (line : String)
    (hp : poolYields pool = none) : replaceSignatureInLine pool line = line := by
  cases pool with
  | error e => rfl
  | ok w =>
    simp only [poolYields] at hp
    by_cases hw : w = ""
    · simp only [replaceSignatureInLine]
      rw [if_pos hw]
    · rw [if_neg hw] at hp
      exact Option.noConfusion hp

/-- On a pool miss the delta handler leaves the line unchanged. -/
theorem handleContentBlockDelta_line_miss {pool : Except Unit String}
    (cfg : SignatureConfig) (st : StreamState) (line : String) (i : Int)
    (draw : Option Json) (hp : poolYields pool = none) :
    (handleContentBlockDelta cfg pool st line i draw).1 = line := by
  unfold handleContentBlockDelta
  dsimp only
  repeat' split
  all_goals first
    | rfl
    | exact replaceSignatureInLine_miss line hp

/-- On a pool miss the stop handler injects nothing. -/
theorem handleContentBlockStop_miss {pool : Except Unit String}
    (cfg : SignatureConfig) (st : StreamState) (line : String) (i : Int)
    (hp : poolYields pool = none) :
    (handleContentBlockStop cfg pool st line i).2.1 = [] := by
  unfold handleContentBlockStop
  dsimp only
  rw [generate_miss i hp]
  repeat' split
  all_goals simp_all

/-- On a pool miss the whole line processor passes the line through and
injects nothing (state may still be updated). -/
theorem ProcessSSELine_pool_miss (cfg : SignatureConfig) {pool : Except Unit String}
    (st : StreamState) (line : String) (hp : poolYields pool = none) :
    (ProcessSSELine cfg pool st line).line = line ∧
    (ProcessSSELine cfg pool st line).extraLines = [] := by
  unfold ProcessSSELine
  dsimp only
  split
  · exact ⟨rfl, rfl⟩
  · split
    · exact ⟨rfl, rfl⟩
    · split
      · exact ⟨rfl, rfl⟩
      · split
        · exact ⟨handleContentBlockStart_line _ _ _ _, rfl⟩
        · split
          · exact ⟨handleContentBlockDelta_line_miss _ _ _ _ _ hp, rfl⟩
          · split
            · exact ⟨handleContentBlockStop_line _ _ _ _ _, handleContentBlockStop_miss _ _ _ _ hp⟩
            · exact ⟨rfl, rfl⟩

/-- C5: `ProcessSSELine` never returns an error; non-`data:` lines, empty
or `[DONE]` payloads, and unparseable payloads are returned unchanged
(state untouched) with no extra lines; and a pool miss (pool failure or
empty draw) leaves the original line unchanged with nothing injected.
The JSON-mutation failure path of the code likewise returns the original
line (`replaceSignatureInLine` falls back to `line` when the rewrite
yields nothing). -/
theorem process_line_total_and_passthrough (cfg : SignatureConfig)
    (pool : Except Unit String) (st : StreamState) (line : String) :
    (ProcessSSELine cfg pool st line).err = none ∧
    (sseIsData line = false → ProcessSSELine cfg pool st line = ⟨line, [], st, none⟩) ∧
    (sseIsData line = true → sseStrip line = "" ∨ sseStrip line = "[DONE]" →
      ProcessSSELine cfg pool st line = ⟨line, [], st, none⟩) ∧
    (unmarshalSSEEvent (sseStrip line) = none →
      ProcessSSELine cfg pool st line = ⟨line, [], st, none⟩) ∧
    (poolYields pool = none →
      (ProcessSSELine cfg pool st line).line = line ∧
      (ProcessSSELine cfg pool st line).extraLines = []) := by
  refine ⟨?_, ?_, ?_, ?_, fun hp => ProcessSSELine_pool_miss cfg st line hp⟩
  · unfold ProcessSSELine
    dsimp only
    repeat' split
    all_goals rfl
  · intro h
    unfold ProcessSSELine
    rw [h]
    simp
  · intro hpre hd
    unfold ProcessSSELine
    rw [hpre, if_neg (by simp), if_pos hd]
  · intro h
    by_cases hpre : sseIsData line = false
    · unfold ProcessSSELine
      rw [hpre]
      simp
    · rw [Bool.not_eq_false] at hpre
      by_cases hd : sseStrip line = "" ∨ sseStrip line = "[DONE]"
      · unfold ProcessSSELine
        rw [hpre, if_neg (by simp), if_pos hd]
      · unfold ProcessSSELine
        rw [hpre, if_neg (by simp), if_neg hd, h]

/-- Witness for C5: concrete non-data, `[DONE]` and unparseable lines
pass through untouched, with no error. -/
theorem process_line_total_witness :
    (ProcessSSELine ⟨true, "always_replace", none, false, 350⟩ (Except.error ())
        ⟨[], none⟩ "event: ping").err = none ∧
    ProcessSSELine ⟨true, "always_replace", none, false, 350⟩ (Except.error ())
        ⟨[], none⟩ "event: ping" = ⟨"event: ping", [], ⟨[], none⟩, none⟩ ∧
    ProcessSSELine ⟨true, "always_replace", none, false, 350⟩ (Except.error ())
        ⟨[], none⟩ "data: [DONE]" = ⟨"data: [DONE]", [], ⟨[], none⟩, none⟩ ∧
    ProcessSSELine ⟨true, "always_replace", none, false, 350⟩ (Except.error ())
        ⟨[], none⟩ "data: notjson" = ⟨"data: notjson", [], ⟨[], none⟩, none⟩ :=
  ⟨(process_line_total_and_passthrough _ _ _ _).1,
   (process_line_total_and_passthrough _ _ _ _).2.1 rfl,
   (process_line_total_and_passthrough _ _ _ _).2.2.1 rfl (Or.inr rfl),
   (process_line_total_and_passthrough _ _ _ _).2.2.2.1 rfl⟩

/-! ## Helper lemmas: in-place JSON field update -/

/-- No binding, no lookup result. -/
theorem getField_none_of_any_false {fs : List (String × Json)} {k : String}
    (h : fs.any (fun p => p.1 = k) = false) : getField fs k = none := by
  induction fs with
  | nil => rfl
  | cons p ps ih =>
    simp only [List.any_cons, Bool.or_eq_false_iff] at h
    obtain ⟨h1, h2⟩ := h
    simp only [getField, ih h2]
    rw [if_neg (by simpa using h1)]

/-- A present key has a lookup result. -/
theorem getField_some_of_any_true {fs : List (String × Json)} {k : String}
    (h : fs.any (fun p => p.1 = k) = true) : ∃ v, getField fs k = some v := by
  induction fs with
  | nil => exact Bool.noConfusion h
  | cons p ps ih =>
    cases hrest : getField ps k with
    | some v => exact ⟨v, by simp only [getField, hrest]⟩
    | none =>
      simp only [List.any_cons, Bool.or_eq_true] at h
      rcases h with h1 | h2
      · refine ⟨p.2, ?_⟩
        simp only [getField, hrest]
        rw [if_pos (by simpa using h1)]
      · obtain ⟨v, hv⟩ := ih h2
        rw [hrest] at hv
        exact Option.noConfusion hv

/-- Lookup across an append prefers the suffix (last-wins). -/
theorem getField_append (as bs : List (String × Json)) (k : String) :
    getField (as ++ bs) k =
      match getField bs k with
      | some v => some v
      | none => getField as k := by
  induction as with
  | nil => cases h : getField bs k <;> simp [getField, h]
  | cons p as' ih =>
    simp only [List.cons_append, getField, List.append_eq]
    rw [ih]
    cases h : getField bs k <;> cases h2 : getField as' k <;> simp [getField, h, h2]

/-- Lookup after the in-place map of `setFieldWith`. -/
theorem getField_map_set (fs : List (String × Json)) (k : String) (f : Option Json → Json) :
    getField (fs.map (fun p => if p.1 = k then (k, f (some p.2)) else p)) k =
      Option.map (fun v => f (some v)) (getField fs k) := by
  induction fs with
  | nil => rfl
  | cons p ps ih =>
    simp only [List.map_cons, getField, ih]
    cases h : getField ps k with
    | some v => simp
    | none =>
      by_cases hk : p.1 = k
      · rw [if_pos hk]
        simp [getField, hk]
      · rw [if_neg hk]
        simp [getField, hk]

/-- The written field reads back as the update of the old value. -/
theorem getField_setFieldWith (fs : List (String × Json)) (k : String)
    (f : Option Json → Json) :
    getField (setFieldWith fs k f) k = some (f (getField fs k)) := by
  unfold setFieldWith
  by_cases h : fs.any (fun p => p.1 = k) = true
  · rw [if_pos h, getField_map_set]
    obtain ⟨v, hv⟩ := getField_some_of_any_true h
    rw [hv]
    rfl
  · have h' : fs.any (fun p => p.1 = k) = false := by rwa [Bool.not_eq_true] at h
    rw [if_neg (by rw [h']; simp), getField_append, getField_none_of_any_false h']
    simp [getField]

/-- Read the `delta.signature` path of an event object. -/
def getDeltaSignature (j : Json) : Option Json :=
  match j with
  | Json.obj fs =>
    match getField fs "delta" with
    | some (Json.obj dfs) => getField dfs "signature"
    | _ => none
  | _ => none

/-- After the model of `sjson.Set(data, "delta.signature", sig)`, the
path reads back as the written string. -/
theorem getDeltaSignature_set (fs : List (String × Json)) (sig : String) :
    getDeltaSignature
        (Json.obj (setFieldWith fs "delta" (fun dv => setDeltaSignature dv sig))) =
      some (Json.str sig) := by
  simp only [getDeltaSignature]
  rw [getField_setFieldWith]
  cases h : getField fs "delta" with
  | none => simp [setDeltaSignature, getField_setFieldWith, getField]
  | some dv =>
    cases dv <;> simp [setDeltaSignature, getField_setFieldWith, getField]

/-- An event with a non-empty type came from a JSON object. -/
theorem unmarshal_obj {data : String} {ev : SSEEvent}
    (h : unmarshalSSEEvent data = some ev) (ht : ev.type ≠ "") :
    ∃ fs, parseJson data = some (Json.obj fs) := by
  unfold unmarshalSSEEvent at h
  cases hp : parseJson data with
  | none => rw [hp] at h; exact Option.noConfusion h
  | some j =>
    rw [hp] at h
    cases j with
    | null =>
      simp only [] at h
      cases h
      exact absurd rfl ht
    | obj fs => exact ⟨fs, rfl⟩
    | bool b => exact Option.noConfusion h
    | num i lit => exact Option.noConfusion h
    | str s => exact Option.noConfusion h
    | arr xs => exact Option.noConfusion h

/-- The in-line rewrite on a pool hit over a parsed object payload. -/
theorem replaceSignatureInLine_hit {pool : Except Unit String} {v : String}
    (line : String) (hp : poolYields pool = some v) {fs : List (String × Json)}
    (hparse : parseJson (sseStrip line) = some (Json.obj fs)) :
    replaceSignatureInLine pool line =
      "data: " ++ serializeJson
        (Json.obj (setFieldWith fs "delta" (fun dv => setDeltaSignature dv v))) := by
  obtain ⟨hpool, hv⟩ := poolYields_some hp
  rw [hpool]
  simp only [replaceSignatureInLine]
  rw [if_neg hv]
  simp only [sjsonSetDeltaSignature, hparse]

/-- The delta handler at an untracked index under `always_replace`:
no state change, line rewritten. -/
theorem handleContentBlockDelta_untracked {cfg : SignatureConfig}
    {pool : Except Unit String} {st : StreamState} {line : String} {i : Int}
    {draw : Option Json} {d : DeltaMsg}
    (hd : unmarshalDelta draw = some d) (hdt : d.type = "signature_delta")
    (hblk : lookupBlock st.thinkingBlocks i = none)
    (hstrat : cfg.strategy = "always_replace") :
    handleContentBlockDelta cfg pool st line i draw = (replaceSignatureInLine pool line, st) := by
  unfold handleContentBlockDelta
  rw [hd]
  dsimp only
  rw [if_neg (by rw [hdt]; exact fun hne => hne rfl), hblk, if_pos hstrat]

/-- The stop handler at an untracked index is the identity. -/
theorem handleContentBlockStop_untracked (cfg : SignatureConfig)
    (pool : Except Unit String) (st : StreamState) (line : String) (i : Int)
    (h : lookupBlock st.thinkingBlocks i = none) :
    handleContentBlockStop cfg pool st line i = (line, [], st) := by
  unfold handleContentBlockStop
  rw [h]

/-- C10: a `signature_delta` at an index with no tracked thinking block
records no per-block state and leaves the collector untouched (the whole
mutable state is unchanged), yet under `always_replace` with a pool hit
the line is still rewritten with the pool value at `delta.signature`;
consequently a later `content_block_stop` at that index (in the unchanged
state) injects nothing and passes through. -/
theorem delta_untracked_rewrites_without_state
    {cfg : SignatureConfig} {pool : Except Unit String} {st : StreamState}
    {line : String} {ev : SSEEvent} {d : DeltaMsg} {v : String}
    (hpre : sseIsData line = true)
    (hev : unmarshalSSEEvent (sseStrip line) = some ev)
    (htype : ev.type = "content_block_delta")
    (hd : unmarshalDelta ev.delta = some d)
    (hdt : d.type = "signature_delta")
    (hblk : lookupBlock st.thinkingBlocks ev.index = none)
    (hstrat : cfg.strategy = "always_replace")
    (hpool : poolYields pool = some v) :
    (ProcessSSELine cfg pool st line).state = st ∧
    (ProcessSSELine cfg pool st line).extraLines = [] ∧
    (∃ fs, parseJson (sseStrip line) = some (Json.obj fs) ∧
      (ProcessSSELine cfg pool st line).line =
        "data: " ++ serializeJson
          (Json.obj (setFieldWith fs "delta" (fun dv => setDeltaSignature dv v))) ∧
      getDeltaSignature
          (Json.obj (setFieldWith fs "delta" (fun dv => setDeltaSignature dv v))) =
        some (Json.str v)) ∧
    (∀ (pool2 : Except Unit String) (line2 : String) (ev2 : SSEEvent),
      sseIsData line2 = true → unmarshalSSEEvent (sseStrip line2) = some ev2 →
      ev2.type = "content_block_stop" → ev2.index = ev.index →
      ProcessSSELine cfg pool2 st line2 = ⟨line2, [], st, none⟩) := by
  obtain ⟨fs, hparse⟩ := unmarshal_obj hev (by rw [htype]; exact fun hc => absurd hc (by decide))
  rw [ProcessSSELine_delta hpre hev htype,
    handleContentBlockDelta_untracked hd hdt hblk hstrat]
  refine ⟨rfl, rfl, ⟨fs, hparse, ?_, getDeltaSignature_set fs v⟩, ?_⟩
  · exact replaceSignatureInLine_hit line hpool hparse
  · intro pool2 line2 ev2 hpre2 hev2 htype2 hidx
    rw [ProcessSSELine_stop hpre2 hev2 htype2, hidx,
      handleContentBlockStop_untracked cfg pool2 st line2 ev.index hblk]

/-- Witness for C10: a concrete untracked `signature_delta` under
`always_replace` gets its signature rewritten while the state stays
empty, and a following stop at the index injects nothing. -/
theorem delta_untracked_rewrites_witness :
    (ProcessSSELine ⟨true, "always_replace", none, false, 350⟩ (Except.ok "POOLSIG")
        ⟨[], none⟩
        "data: \x7b\"type\":\"content_block_delta\",\"index\":2,\"delta\":\x7b\"type\":\"signature_delta\",\"signature\":\"UP\"\x7d\x7d").state =
      ⟨[], none⟩ ∧
    (ProcessSSELine ⟨true, "always_replace", none, false, 350⟩ (Except.ok "POOLSIG")
        ⟨[], none⟩
        "data: \x7b\"type\":\"content_block_delta\",\"index\":2,\"delta\":\x7b\"type\":\"signature_delta\",\"signature\":\"UP\"\x7d\x7d").line =
      "data: \x7b\"type\":\"content_block_delta\",\"index\":2,\"delta\":\x7b\"type\":\"signature_delta\",\"signature\":\"POOLSIG\"\x7d\x7d" := by
  have h := @delta_untracked_rewrites_without_state
    ⟨true, "always_replace", none, false, 350⟩ (Except.ok "POOLSIG") ⟨[], none⟩
    "data: \x7b\"type\":\"content_block_delta\",\"index\":2,\"delta\":\x7b\"type\":\"signature_delta\",\"signature\":\"UP\"\x7d\x7d"
    ⟨"content_block_delta", 2,
      some (Json.obj [("type", Json.str "signature_delta"), ("signature", Json.str "UP")]), none⟩
    ⟨"signature_delta", "UP"⟩ "POOLSIG"
    rfl rfl rfl rfl rfl rfl rfl rfl
  refine ⟨h.1, ?_⟩
  obtain ⟨fs, hparse, hline, hsig⟩ := h.2.2.1
  have : fs = [("type", Json.str "content_block_delta"), ("index", Json.num 2 "2"),
      ("delta", Json.obj [("type", Json.str "signature_delta"), ("signature", Json.str "UP")])] := by
    have := hparse.symm.trans (rfl :
      parseJson (sseStrip "data: \x7b\"type\":\"content_block_delta\",\"index\":2,\"delta\":\x7b\"type\":\"signature_delta\",\"signature\":\"UP\"\x7d\x7d") =
        some (Json.obj [("type", Json.str "content_block_delta"), ("index", Json.num 2 "2"),
          ("delta", Json.obj [("type", Json.str "signature_delta"), ("signature", Json.str "UP")])]))
    cases this
    rfl
  subst this
  rw [hline]
  rfl

/-- The synthetic-line format as the specification words it (the second
definition of the refinement comparison): `data: ` followed by compact
JSON with keys in the order `type`, `index`, `delta`, and inner delta
keys `type` then `signature`. -/
def specSignatureDeltaLine (index : Int) (signature : String) : String :=
  "data: \x7b\"type\":\"content_block_delta\",\"index\":" ++ toString index ++
    ",\"delta\":\x7b\"type\":\"signature_delta\",\"signature\":\"" ++ signature ++ "\"\x7d\x7d"

/-- Counterexample to C2 as stated: at index 0 with pool value `SIGX`,
the processor's injected line (produced by `json.Marshal` of a Go map,
which sorts keys) differs from the spec's stated key order; the actual
line puts `delta` first, with `signature` before `type` inside it. -/
theorem injected_line_key_order_counterexample :
    (ProcessSSELine ⟨true, "fill_missing", none, false, 350⟩ (Except.ok "SIGX")
        ⟨[((0 : Int), freshBlock 0)], none⟩
        "data: \x7b\"type\":\"content_block_stop\",\"index\":0\x7d").extraLines =
      ["data: \x7b\"delta\":\x7b\"signature\":\"SIGX\",\"type\":\"signature_delta\"\x7d,\"index\":0,\"type\":\"content_block_delta\"\x7d"] ∧
    "data: \x7b\"delta\":\x7b\"signature\":\"SIGX\",\"type\":\"signature_delta\"\x7d,\"index\":0,\"type\":\"content_block_delta\"\x7d" ≠
      specSignatureDeltaLine 0 "SIGX" := by
  constructor
  · decide
  · decide

/-- C2 amended: the injected synthetic line is `data: ` followed by the
compact JSON encoding of the event with object keys in Go's sorted map
order — `delta` (containing `signature` then `type`), then `index`, then
`type` — the JSON-escaped pool value sitting at `delta.signature`. -/
theorem generate_line_sorted_key_order (index : Int) (v : String) (hv : v ≠ "") :
    generateSignatureDeltaLine (Except.ok v) index =
      "data: " ++ serializeJson (Json.obj
        [ ("delta", Json.obj
            [ ("signature", Json.str v)
            , ("type", Json.str "signature_delta") ])
        , ("index", Json.num index (toString index))
        , ("type", Json.str "content_block_delta") ]) := by
  simp only [generateSignatureDeltaLine]
  rw [if_neg hv]
  rfl

/-- Witness for the amended C2 at a concrete index and pool value. -/
theorem generate_line_sorted_key_order_witness :
    generateSignatureDeltaLine (Except.ok "SIG-A") 0 =
      "data: \x7b\"delta\":\x7b\"signature\":\"SIG-A\",\"type\":\"signature_delta\"\x7d,\"index\":0,\"type\":\"content_block_delta\"\x7d" := by
  rw [generate_line_sorted_key_order 0 "SIG-A" (by decide)]
  rfl

/-! ## Helper lemmas: pool filtering -/

/-- Degradation makes the filter output non-empty whenever the input is. -/
theorem filterSignatures_ne_nil {sigs : List CachedSignature}
    (f : Option SignaturePoolFilter) (h : sigs ≠ []) :
    filterSignatures sigs f ≠ [] := by
  unfold filterSignatures
  match f with
  | none => exact h
  | some flt =>
    dsimp only
    by_cases hm : flt.models = []
    · rw [if_pos hm]
      exact h
    · rw [if_neg hm]
      by_cases hr : sigs.filter (sigEligible flt.models) = []
      · rw [if_pos hr]
        exact h
      · rw [if_neg hr]
        exact hr

/-- The random pick is a member of the candidate list. -/
theorem selectSignature_mem (l : List CachedSignature) (r : Nat) (h : l ≠ []) :
    selectSignature l r ∈ l := by
  unfold selectSignature
  have hlen : r % l.length < l.length := Nat.mod_lt _ (List.length_pos.mpr h)
  rw [List.getD_eq_getElem?_getD, List.getElem?_eq_getElem hlen]
  exact List.getElem_mem hlen

/-- C3: with a non-empty snapshot and a non-empty model filter, the
returned value is the picked element's value; the picked element is
filter-eligible (nil model or model in the set) whenever any eligible
signature exists; when none exists the selection degrades to the whole
unfiltered snapshot; and nil-model signatures are always kept by the
filter. -/
theorem random_signature_respects_filter
    (sigs : List CachedSignature) (f : SignaturePoolFilter)
    (db : Except Unit (List Signature)) (r : Nat)
    (h1 : sigs ≠ []) (h2 : f.models ≠ []) :
    (GetRandomSignature ⟨sigs⟩ true db (some f) r).1 =
      Except.ok (selectSignature (filterSignatures sigs (some f)) r).value ∧
    ((∃ s ∈ sigs, sigEligible f.models s = true) →
      sigEligible f.models (selectSignature (filterSignatures sigs (some f)) r) = true) ∧
    ((∀ s ∈ sigs, sigEligible f.models s = false) → filterSignatures sigs (some f) = sigs) ∧
    (∀ s ∈ sigs, s.model = none → s ∈ filterSignatures sigs (some f)) := by
  have hacq : getCachedSignatures ⟨sigs⟩ true db = (sigs, ⟨sigs⟩) := by
    unfold getCachedSignatures
    rw [if_pos ⟨h1, rfl⟩]
  refine ⟨?_, ?_, ?_, ?_⟩
  · unfold GetRandomSignature
    rw [hacq]
    dsimp only
    rw [if_neg h1, if_neg (filterSignatures_ne_nil _ h1)]
  · rintro ⟨s, hs, hel⟩
    have hne : sigs.filter (sigEligible f.models) ≠ [] := fun hc =>
      List.filter_eq_nil_iff.mp hc s hs hel
    have hfil : filterSignatures sigs (some f) = sigs.filter (sigEligible f.models) := by
      unfold filterSignatures
      dsimp only
      rw [if_neg h2, if_neg hne]
    rw [hfil]
    exact (List.mem_filter.mp (selectSignature_mem _ r hne)).2
  · intro hall
    have hnil : sigs.filter (sigEligible f.models) = [] :=
      List.filter_eq_nil_iff.mpr (fun a ha => by rw [hall a ha]; exact Bool.false_ne_true)
    unfold filterSignatures
    dsimp only
    rw [if_neg h2, if_pos hnil]
  · intro s hs hnone
    unfold filterSignatures
    dsimp only
    rw [if_neg h2]
    by_cases hr : sigs.filter (sigEligible f.models) = []
    · rw [if_pos hr]
      exact hs
    · rw [if_neg hr]
      refine List.mem_filter.mpr ⟨hs, ?_⟩
      unfold sigEligible
      rw [hnone]

/-- Witness for C3: a one-element snapshot whose only model is `m1`
degrades under the filter `[m2]` and still returns `S1`. -/
theorem random_signature_respects_filter_witness :
    (GetRandomSignature ⟨[⟨1, "S1", some "m1"⟩]⟩ true (Except.error ())
        (some ⟨["m2"]⟩) 0).1 = Except.ok "S1" ∧
    filterSignatures [⟨1, "S1", some "m1"⟩] (some ⟨["m2"]⟩) = [⟨1, "S1", some "m1"⟩] := by
  have h := random_signature_respects_filter [⟨1, "S1", some "m1"⟩] ⟨["m2"]⟩
    (Except.error ()) 0 (by decide) (by decide)
  refine ⟨?_, ?_⟩
  · rw [h.1]
    rfl
  · exact h.2.2.1 (by decide)

/-- C4: `GetRandomSignature` returns `PoolEmpty` exactly when the
snapshot obtained by the acquisition/reload step is empty; a failing
`ListActive` leaves the previous snapshot in place, and if that snapshot
is non-empty a value is still returned. -/
theorem pool_empty_iff_snapshot_empty (st : PoolState) (ne : Bool)
    (db : Except Unit (List Signature)) (filter : Option SignaturePoolFilter) (r : Nat) :
    ((GetRandomSignature st ne db filter r).1 = Except.error SigError.poolEmpty ↔
      (getCachedSignatures st ne db).1 = []) ∧
    (db = Except.error () → (getCachedSignatures st ne db).1 = st.cachedSigs) ∧
    (db = Except.error () → st.cachedSigs ≠ [] →
      ∃ v, (GetRandomSignature st ne db filter r).1 = Except.ok v) := by
  have hsnap : db = Except.error () → (getCachedSignatures st ne db).1 = st.cachedSigs := by
    intro hdb
    unfold getCachedSignatures reloadCache
    by_cases hv : st.cachedSigs ≠ [] ∧ ne = true
    · rw [if_pos hv]
    · rw [if_neg hv, if_neg hv, hdb]
  refine ⟨?_, hsnap, ?_⟩
  · unfold GetRandomSignature
    by_cases hs : (getCachedSignatures st ne db).1 = []
    · rw [if_pos hs]
      simp [hs]
    · rw [if_neg hs, if_neg (filterSignatures_ne_nil filter hs)]
      simp [hs]
  · intro hdb hne
    unfold GetRandomSignature
    have hs : (getCachedSignatures st ne db).1 ≠ [] := by
      rw [hsnap hdb]
      exact hne
    rw [if_neg hs, if_neg (filterSignatures_ne_nil filter hs)]
    exact ⟨_, rfl⟩

/-- Witness for C4: with a stale non-empty snapshot and a failing
reload, the previous snapshot is served and a value is returned;
`PoolEmpty` is not reported. -/
theorem pool_empty_iff_snapshot_empty_witness :
    (getCachedSignatures ⟨[⟨1, "S1", none⟩]⟩ false (Except.error ())).1 = [⟨1, "S1", none⟩] ∧
    (∃ v, (GetRandomSignature ⟨[⟨1, "S1", none⟩]⟩ false (Except.error ()) none 0).1 =
      Except.ok v) ∧
    ¬((GetRandomSignature ⟨[⟨1, "S1", none⟩]⟩ false (Except.error ()) none 0).1 =
      Except.error SigError.poolEmpty) := by
  have h := pool_empty_iff_snapshot_empty ⟨[⟨1, "S1", none⟩]⟩ false (Except.error ()) none 0
  refine ⟨h.2.1 rfl, h.2.2 rfl (by decide), ?_⟩
  intro hc
  have := h.1.mp hc
  rw [h.2.1 rfl] at this
  exact List.noConfusion this

/-- C6: `Create` computes the hex-encoded SHA-256 of the value as the
hash; an existing non-deleted row with that hash yields the duplicate
error with the store unchanged; otherwise a row with `source=manual`,
`status=active`, `use_count=0` is persisted. -/
theorem create_hash_dedup_persist (store : SigStore) (v : String)
    (model notes : Option String) :
    (ExistsByHash store (computeSignatureHash v) = true →
      Create store v model notes = (Except.error SigError.duplicate, store)) ∧
    (ExistsByHash store (computeSignatureHash v) = false →
      ∃ sig, Create store v model notes = (Except.ok sig, store ++ [SigRow.mk sig false]) ∧
        sig.hash = hexEncode (sha256Bytes (utf8Bytes v)) ∧ sig.value = v ∧
        sig.source = "manual" ∧ sig.status = "active" ∧ sig.useCount = 0 ∧
        sig.model = model ∧ sig.notes = notes) := by
  constructor
  · intro h
    unfold Create
    rw [if_pos h]
  · intro h
    unfold Create
    rw [if_neg (by rw [h]; simp)]
    exact ⟨_, rfl, rfl, rfl, rfl, rfl, rfl, rfl, rfl⟩

/-- Witness for C6: creating `"abc"` in an empty store persists it with
the FIPS 180-4 digest of `"abc"` as hash. -/
theorem create_hash_dedup_persist_witness :
    (∃ sig, Create [] "abc" none none = (Except.ok sig, [] ++ [SigRow.mk sig false]) ∧
      sig.hash = hexEncode (sha256Bytes (utf8Bytes "abc")) ∧ sig.value = "abc" ∧
      sig.source = "manual" ∧ sig.status = "active" ∧ sig.useCount = 0 ∧
      sig.model = none ∧ sig.notes = none) ∧
    computeSignatureHash "abc" =
      "ba7816bf8f01cfea414140de5dae2223b00361a396177a9cb410ff61f20015ad" :=
  ⟨(create_hash_dedup_persist [] "abc" none none).2 rfl, by decide⟩

/-- C7: `Collect` appends exactly when the value's byte length strictly
exceeds `minLength` (default 350 when constructed with a non-positive
threshold) and is the identity otherwise; the append is unconditional on
previous content (no deduplication); `GetCollected` returns the collected
values in collection order. -/
theorem collect_length_filter_no_dedup (c : SignatureCollector) (v : String)
    (accountID ml : Int) (model : Option String) :
    (ml ≤ 0 → (NewSignatureCollector accountID model ml).minLength = 350) ∧
    (0 < ml → (NewSignatureCollector accountID model ml).minLength = ml) ∧
    (c.minLength < (goStrLen v : Int) →
      Collect c v = { c with signatures := c.signatures ++ [v] }) ∧
    ((goStrLen v : Int) ≤ c.minLength → Collect c v = c) ∧
    GetCollected c = c.signatures := by
  refine ⟨?_, ?_, ?_, ?_, rfl⟩
  · intro h
    unfold NewSignatureCollector
    rw [if_pos h]
  · intro h
    unfold NewSignatureCollector
    rw [if_neg (by omega)]
  · intro h
    unfold Collect
    rw [if_neg (by omega)]
  · intro h
    unfold Collect
    rw [if_pos h]

/-- Witness for C7: the spec's collection scenario with threshold 5 —
`"abcdef"` (6 bytes) is kept, `"abc"` (3 bytes) is dropped; a
non-positive threshold falls back to 350. -/
theorem collect_length_filter_witness :
    (NewSignatureCollector 7 none (-3)).minLength = 350 ∧
    GetCollected (Collect (Collect (NewSignatureCollector 7 none 5) "abcdef") "abc") =
      ["abcdef"] := by
  have hA := (collect_length_filter_no_dedup (NewSignatureCollector 7 none 5)
    "abcdef" 0 0 none).2.2.1 (by decide)
  have hB := (collect_length_filter_no_dedup (Collect (NewSignatureCollector 7 none 5) "abcdef")
    "abc" 0 0 none).2.2.2.1 (by rw [hA]; decide)
  refine ⟨(collect_length_filter_no_dedup (NewSignatureCollector 7 none (-3))
    "" 7 (-3) none).1 (by decide), ?_⟩
  rw [hB, hA]
  rfl

/-! ## Helper lemmas: batch import -/

/-- A successful `BatchCreate` on a non-empty batch appends the rows. -/
theorem BatchCreate_ok_store {store : SigStore} {sigs : List Signature}
    {p : Nat × SigStore} (hne : sigs ≠ [])
    (h : BatchCreate store sigs = Except.ok p) :
    p.2 = store ++ sigs.map (fun s => SigRow.mk s false) := by
  unfold BatchCreate at h
  rw [if_neg hne] at h
  by_cases hviol : batchViolatesUnique store sigs = true
  · rw [if_pos hviol] at h
    exact Except.noConfusion h
  · rw [if_neg hviol] at h
    cases h
    rfl

/-- An empty `batchImportNewSigs` means every value's hash was present. -/
theorem batchImportNewSigs_nil {store : SigStore} {values : List String}
    {model : Option String} {source : String}
    (h : batchImportNewSigs store values model source = []) :
    ∀ v ∈ values, existsByHashesLookup store (computeSignatureHash v) = true := by
  unfold batchImportNewSigs at h
  have hvals : batchImportNewValues store values = [] := List.map_eq_nil_iff.mp h
  unfold batchImportNewValues at hvals
  intro v hv
  have := List.filter_eq_nil_iff.mp hvals v hv
  simpa using this

/-- A value whose hash is absent lands in `batchImportNewValues`. -/
theorem mem_batchImportNewValues {store : SigStore} {values : List String} {v : String}
    (hv : v ∈ values)
    (habs : existsByHashesLookup store (computeSignatureHash v) = false) :
    v ∈ batchImportNewValues store values :=
  List.mem_filter.mpr ⟨hv, by rw [habs]; rfl⟩

/-- After any error-free `BatchImport`, every value of the batch has its
hash present among the non-deleted rows of the resulting store. -/
theorem batchImport_all_present {store : SigStore} {values : List String}
    {model : Option String} {source : String}
    (h : (BatchImport store values model source).err = none) :
    ∀ v ∈ values,
      existsByHashesLookup (BatchImport store values model source).store
        (computeSignatureHash v) = true := by
  intro v hv
  by_cases hemp : values = []
  · rw [hemp] at hv
    exact absurd hv (List.not_mem_nil v)
  · unfold BatchImport at h ⊢
    rw [if_neg hemp] at h ⊢
    dsimp only at h ⊢
    by_cases hnew : batchImportNewSigs store values model
        (if source = "" then "imported" else source) = []
    · rw [if_pos hnew] at h ⊢
      exact batchImportNewSigs_nil hnew v hv
    · rw [if_neg hnew] at h ⊢
      cases hbc : BatchCreate store (batchImportNewSigs store values model
          (if source = "" then "imported" else source)) with
      | error e =>
        rw [hbc] at h
        exact Option.noConfusion h
      | ok p =>
        obtain ⟨n, store'⟩ := p
        dsimp only
        rw [show store' = _ from BatchCreate_ok_store hnew hbc]
        unfold existsByHashesLookup ExistsByHash
        rw [List.any_append]
        by_cases hex : existsByHashesLookup store (computeSignatureHash v) = true
        · unfold existsByHashesLookup ExistsByHash at hex
          rw [hex]
          rfl
        · have hex' : existsByHashesLookup store (computeSignatureHash v) = false := by
            rwa [Bool.not_eq_true] at hex
          have hmem : v ∈ batchImportNewValues store values :=
            mem_batchImportNewValues hv hex'
          have hrow : SigRow.mk
              { id := 0, value := v, hash := computeSignatureHash v, model := model
                source := (if source = "" then "imported" else source), status := "active"
                useCount := 0, notes := none, collectedFromAccountID := none } false ∈
              (batchImportNewSigs store values model
                (if source = "" then "imported" else source)).map (fun s => SigRow.mk s false) :=
            List.mem_map_of_mem _ (List.mem_map_of_mem _ hmem)
          have hany : ((batchImportNewSigs store values model
              (if source = "" then "imported" else source)).map (fun s => SigRow.mk s false)).any
                (fun r => !r.deleted && r.sig.hash == computeSignatureHash v) = true := by
            refine List.any_eq_true.mpr ⟨_, hrow, ?_⟩
            simp
          rw [hany]
          simp

/-- C8: after an error-free `BatchImport(V)`, running `BatchImport(V)`
again on the resulting store imports nothing, counts every value as a
duplicate, fails nothing, and never calls `BatchCreate`. -/
theorem batch_import_idempotent (store : SigStore) (values : List String)
    (model : Option String) (source : String)
    (h : (BatchImport store values model source).err = none) :
    (BatchImport (BatchImport store values model source).store values model
        source).result.imported = 0 ∧
    (BatchImport (BatchImport store values model source).store values model
        source).result.duplicated = values.length ∧
    (BatchImport (BatchImport store values model source).store values model
        source).result.failed = 0 ∧
    (BatchImport (BatchImport store values model source).store values model
        source).calledBatchCreate = false := by
  have hall := batchImport_all_present h
  by_cases hemp : values = []
  · subst hemp
    simp [BatchImport]
  · generalize hst : (BatchImport store values model source).store = store2 at hall ⊢
    have hnew : batchImportNewSigs store2 values model
        (if source = "" then "imported" else source) = [] := by
      unfold batchImportNewSigs batchImportNewValues
      rw [List.map_eq_nil_iff, List.filter_eq_nil_iff]
      intro a ha
      rw [hall a ha]
      simp
    have hdup : countDuplicated store2 values = values.length := by
      unfold countDuplicated
      exact List.countP_eq_length.mpr (fun a ha => hall a ha)
    unfold BatchImport
    rw [if_neg hemp]
    dsimp only
    rw [if_pos hnew]
    exact ⟨rfl, hdup, rfl, rfl⟩

/-- Witness for C8: importing `["X", "Y"]` twice into an empty store —
the second run imports 0, duplicates 2, fails 0 and skips `BatchCreate`. -/
theorem batch_import_idempotent_witness :
    (BatchImport [] ["X", "Y"] none "imported").err = none ∧
    (BatchImport (BatchImport [] ["X", "Y"] none "imported").store ["X", "Y"] none
        "imported").result.imported = 0 ∧
    (BatchImport (BatchImport [] ["X", "Y"] none "imported").store ["X", "Y"] none
        "imported").result.duplicated = 2 ∧
    (BatchImport (BatchImport [] ["X", "Y"] none "imported").store ["X", "Y"] none
        "imported").calledBatchCreate = false := by
  have h := batch_import_idempotent [] ["X", "Y"] none "imported" (by decide)
  exact ⟨by decide, h.1, h.2.1, h.2.2.2⟩

/-- The batch values handed to `BatchCreate` are exactly the surviving
input values, in order and with multiplicity. -/
theorem batchImportNewSigs_values (store : SigStore) (values : List String)
    (model : Option String) (source : String) :
    (batchImportNewSigs store values model source).map (fun s => s.value) =
      batchImportNewValues store values := by
  unfold batchImportNewSigs
  rw [List.map_map]
  exact List.map_id _

/-- C9: `BatchImport` does not deduplicate within a batch — a value
occurring twice whose hash is absent keeps both occurrences in the slice
passed to `BatchCreate` and contributes nothing to `duplicated`; the
batch then trips the backend unique-hash constraint, and the surfaced
result reports `failed = len(newSigs)` and `imported = 0`. -/
theorem batch_import_no_inbatch_dedup (store : SigStore) (values : List String)
    (model : Option String) (source : String) (v : String)
    (hv : 2 ≤ values.count v)
    (habs : existsByHashesLookup store (computeSignatureHash v) = false) :
    ((batchImportNewSigs store values model
        (if source = "" then "imported" else source)).map (fun s => s.value)).count v =
      values.count v ∧
    countDuplicated store values =
      values.countP (fun w => existsByHashesLookup store (computeSignatureHash w)) ∧
    BatchCreate store (batchImportNewSigs store values model
        (if source = "" then "imported" else source)) = Except.error SigError.duplicate ∧
    (BatchImport store values model source).result =
      ⟨values.length, 0, countDuplicated store values,
        (batchImportNewSigs store values model
          (if source = "" then "imported" else source)).length⟩ := by
  have hmemv : v ∈ values := List.count_pos_iff.mp (by omega)
  have hcount : (batchImportNewValues store values).count v = values.count v := by
    unfold batchImportNewValues
    exact List.count_filter (by rw [habs]; rfl)
  have hmemnew : v ∈ batchImportNewValues store values :=
    List.count_pos_iff.mp (by rw [hcount]; omega)
  have hnewne : batchImportNewSigs store values model
      (if source = "" then "imported" else source) ≠ [] := by
    intro hc
    have := batchImportNewSigs_nil hc v hmemv
    rw [habs] at this
    exact Bool.noConfusion this
  have hhashcount : 2 ≤ ((batchImportNewSigs store values model
      (if source = "" then "imported" else source)).map (fun s => s.hash)).count
        (computeSignatureHash v) := by
    have hmap : (batchImportNewSigs store values model
        (if source = "" then "imported" else source)).map (fun s => s.hash) =
          (batchImportNewValues store values).map computeSignatureHash := by
      unfold batchImportNewSigs
      rw [List.map_map]
      rfl
    rw [hmap]
    calc 2 ≤ (batchImportNewValues store values).count v := by rw [hcount]; omega
    _ ≤ _ := List.count_le_count_map _ _ _
  have hnodup : ¬((batchImportNewSigs store values model
      (if source = "" then "imported" else source)).map (fun s => s.hash)).Nodup := by
    intro hc
    have := List.nodup_iff_count_le_one.mp hc (computeSignatureHash v)
    omega
  have hviol : batchViolatesUnique store (batchImportNewSigs store values model
      (if source = "" then "imported" else source)) = true := by
    unfold batchViolatesUnique
    rw [decide_eq_false hnodup]
    rfl
  have hbc : BatchCreate store (batchImportNewSigs store values model
      (if source = "" then "imported" else source)) = Except.error SigError.duplicate := by
    unfold BatchCreate
    rw [if_neg hnewne, if_pos hviol]
  refine ⟨?_, rfl, hbc, ?_⟩
  · rw [batchImportNewSigs_values]
    exact hcount
  · have hemp : values ≠ [] := fun hc => by rw [hc] at hmemv; exact absurd hmemv (List.not_mem_nil v)
    unfold BatchImport
    rw [if_neg hemp]
    dsimp only
    rw [if_neg hnewne, hbc]

/-- Witness for C9: importing `["Y", "Y"]` into an empty store passes
both occurrences to `BatchCreate`, which fails on the unique constraint;
the result is `{total 2, imported 0, duplicated 0, failed 2}`. -/
theorem batch_import_no_inbatch_dedup_witness :
    ((batchImportNewSigs [] ["Y", "Y"] none "imported").map (fun s => s.value)).count "Y" = 2 ∧
    BatchCreate [] (batchImportNewSigs [] ["Y", "Y"] none "imported") =
      Except.error SigError.duplicate ∧
    (BatchImport [] ["Y", "Y"] none "imported").result = ⟨2, 0, 0, 2⟩ := by
  have h := batch_import_no_inbatch_dedup [] ["Y", "Y"] none "imported" "Y"
    (by decide) (by decide)
  have hif : (if ("imported" : String) = "" then "imported" else "imported") = "imported" := by decide
  refine ⟨?_, ?_, ?_⟩
  · have := h.1
    rw [hif] at this
    rw [this]
    decide
  · have := h.2.2.1
    rwa [hif] at this
  · have := h.2.2.2
    rw [hif] at this
    rw [this]
    refine congrArg _ ?_
    decide
